import Mathlib

/-!
Shallow embedding of the inventory program (`programa-v0.12.py`, and the
`programa-v0.1.py` draft where a claim concerns it): the product record,
the record codec used by load/save, the mutation operations
(add / edit / delete / sell) and the report ranking, together with proofs
of the specification claims.

Python numbers are modelled exactly: the float `precio` as `ℚ` (every
value the program produces is a finite decimal), the ints `stock` and
`vendidos` as `ℤ`.  Strings are Lean `String`s; the character-level
cleaning done by the program (`strip`, `replace`) is modelled on
`List Char`, where Python's single-character `replace(c, "")` is `filter`
and `replace(c, d)` is `map`.
-/

namespace Inventario

/-- A product record, as the dictionaries built by `cargar_inventario` and
`agregar_producto` of `programa-v0.12.py`: fields `codigo`, `nombre`,
`precio`, `stock`, `vendidos`. -/
structure Product where
  codigo : String
  nombre : String
  precio : ℚ
  stock : ℤ
  vendidos : ℤ
  deriving DecidableEq, Repr

/-- Result of `registrar_venta`, one constructor per message the function
can end with: product not found, quantity `<= 0`, not enough stock, sale
recorded and saved, or save failed after the sale was recorded. -/
inductive VentaResult where
  | noEncontrado
  | cantidadInvalida
  | sinStock
  | ok
  | errorGuardar
  deriving DecidableEq, Repr

/-- The sale operation `registrar_venta` of `programa-v0.12.py` with the
quantity already read and parsed (the menu reads it with `int(input(...))`).
`guardarOk` is the success flag returned by `guardar_inventario`; the code
mutates the matched product before calling it and never rolls back.  The
loop acts on the first product whose `codigo` matches and then returns. -/
def registrarVenta (guardarOk : Bool) (codigo : String) (cantidad : ℤ) :
    List Product → VentaResult × List Product
  | [] => (.noEncontrado, [])
  | p :: resto =>
    if p.codigo = codigo then
      if cantidad ≤ 0 then (.cantidadInvalida, p :: resto)
      else if p.stock < cantidad then (.sinStock, p :: resto)
      else
        ((if guardarOk then .ok else .errorGuardar),
          { p with stock := p.stock - cantidad, vendidos := p.vendidos + cantidad } :: resto)
    else
      let r := registrarVenta guardarOk codigo cantidad resto
      (r.1, p :: r.2)

/-- Result of `agregar_producto`, one constructor per outcome message. -/
inductive AgregarResult where
  | codigoDuplicado
  | datosInvalidos
  | ok
  | errorGuardar
  deriving DecidableEq, Repr

/-- The add operation `agregar_producto` of `programa-v0.12.py` with the
fields already read: the code rejects an existing `codigo`, re-asks until
`precio` and `stock` parse as non-negative numbers (modelled as rejecting
invalid values), appends the product with `vendidos := 0` and saves. -/
def agregarProducto (guardarOk : Bool) (inv : List Product)
    (codigo nombre : String) (precio : ℚ) (stock : ℤ) : AgregarResult × List Product :=
  if inv.any (fun p => p.codigo == codigo) then (.codigoDuplicado, inv)
  else if precio < 0 ∨ stock < 0 then (.datosInvalidos, inv)
  else
    ((if guardarOk then .ok else .errorGuardar),
      inv ++ [{ codigo := codigo, nombre := nombre, precio := precio,
                stock := stock, vendidos := 0 }])

/-- Result of `eliminar_producto`.  The code prints "Producto eliminado"
without looking at what `guardar_inventario` returned, so there is no
constructor for a failed save: the function cannot report one. -/
inductive EliminarResult where
  | noEncontrado
  | eliminado
  deriving DecidableEq, Repr

/-- The delete operation `eliminar_producto` of `programa-v0.12.py`:
removes the first product whose `codigo` matches and saves, discarding the
save's success flag (`guardarOk` is accordingly unused). -/
def eliminarProducto (guardarOk : Bool) (codigo : String) :
    List Product → EliminarResult × List Product
  | [] => (.noEncontrado, [])
  | p :: resto =>
    if p.codigo = codigo then (.eliminado, resto)
    else
      let r := eliminarProducto guardarOk codigo resto
      (r.1, p :: r.2)

/-! ### Character-level cleaning, as done on the raw `precio` cell -/

/-- Python `str.strip` drops whitespace characters; the model uses
`Char.isWhitespace`. -/
def esEspacio (c : Char) : Bool := c.isWhitespace

/-- Python `str.strip()`: whitespace removed from both ends. -/
def trimChars (l : List Char) : List Char :=
  ((l.dropWhile esEspacio).reverse.dropWhile esEspacio).reverse

/-- The cleaning `str(row.get("precio", "")).strip().replace("$", "").replace(" ", "")`
performed by `cargar_inventario` of `programa-v0.12.py` (line 123): strip,
then drop every dollar sign and every space. -/
def limpiarPrecio (l : List Char) : List Char :=
  (trimChars l).filter (fun c => !(c == '$' || c == ' '))

/-- The single-character substitution `replace(",", ".")`. -/
def comaAPunto (c : Char) : Char := if c = ',' then '.' else c

/-- The separator resolution of `cargar_inventario` (lines 124-127 of
`programa-v0.12.py`): a comma with no period means the comma is the decimal
point; a comma and a period together mean the periods are thousands
separators (dropped) and the comma is the decimal point. -/
def normalizarSeparadores (l : List Char) : List Char :=
  if ',' ∈ l ∧ '.' ∉ l then l.map comaAPunto
  else if '.' ∈ l ∧ ',' ∈ l then (l.filter (fun c => !(c == '.'))).map comaAPunto
  else l

/-! ### Decimal digits: rendering and reading back -/

/-- The character of one decimal digit (`9` for any argument above nine). -/
def digitChar (d : ℕ) : Char :=
  if d = 0 then '0' else if d = 1 then '1' else if d = 2 then '2'
  else if d = 3 then '3' else if d = 4 then '4' else if d = 5 then '5'
  else if d = 6 then '6' else if d = 7 then '7' else if d = 8 then '8' else '9'

/-- Numeric value of a digit character. -/
def valorDigito (c : Char) : ℕ := c.toNat - 48

/-- Value of a big-endian run of digit characters. -/
def valorDigitos (l : List Char) : ℕ := l.foldl (fun a c => 10 * a + valorDigito c) 0

/-- Decimal digits of `n`, most significant first (empty for `0`). -/
def charsDeNat (n : ℕ) : List Char := ((Nat.digits 10 n).map digitChar).reverse

/-- Decimal digits of `n`, most significant first, with `0` written `"0"`,
as Python renders integers. -/
def charsDeNatPos (n : ℕ) : List Char := if n = 0 then ['0'] else charsDeNat n

/-- Python `str` of an int: optional minus sign and the decimal digits. -/
def charsDeEntero (i : ℤ) : List Char :=
  (if i < 0 then ['-'] else []) ++ charsDeNatPos i.natAbs

/-- Python `str` of an int, as a string. -/
def strDeEntero (i : ℤ) : String := String.mk (charsDeEntero i)

/-! ### Python numeric parsing (`float(...)`, `int(...)`), modelled on the
plain decimal literals the program produces and the claims exercise;
Python's further forms (exponents, underscores, infinities) are outside
every claim's inputs. -/

/-- Unsigned decimal literal accepted by Python `float`: digits with at most
one point and at least one digit; value is `integer part + fraction`. -/
def parseDecimalSinSigno? (l : List Char) : Option ℚ :=
  if (∀ c ∈ l, c.isDigit = true ∨ c = '.') ∧ (∃ c ∈ l, c.isDigit = true) ∧
      l.count '.' ≤ 1 then
    some ((valorDigitos (l.takeWhile (fun c => !(c == '.'))) : ℚ)
      + (valorDigitos ((l.dropWhile (fun c => !(c == '.'))).drop 1) : ℚ)
        / 10 ^ ((l.dropWhile (fun c => !(c == '.'))).drop 1).length)
  else none

/-- Python `float` on a cleaned character run: optional sign, then an
unsigned decimal literal. -/
def parseDecimalChars? (l : List Char) : Option ℚ :=
  match l with
  | [] => none
  | c :: resto =>
    if c = '-' then (parseDecimalSinSigno? resto).map (fun v => -v)
    else if c = '+' then parseDecimalSinSigno? resto
    else parseDecimalSinSigno? (c :: resto)

/-- Python `int` on a cleaned character run: optional sign, then a nonempty
run of digits. -/
def parseEnteroChars? (l : List Char) : Option ℤ :=
  match l with
  | [] => none
  | c :: resto =>
    if c = '-' then
      if resto ≠ [] ∧ ∀ x ∈ resto, x.isDigit = true then
        some (-(valorDigitos resto : ℤ))
      else none
    else if c = '+' then
      if resto ≠ [] ∧ ∀ x ∈ resto, x.isDigit = true then
        some (valorDigitos resto : ℤ)
      else none
    else
      if ∀ x ∈ c :: resto, x.isDigit = true then
        some (valorDigitos (c :: resto) : ℤ)
      else none

/-- Python `float(s)` (which itself ignores surrounding whitespace). -/
def pyFloat? (s : String) : Option ℚ := parseDecimalChars? (trimChars s.toList)

/-- Python `int(s)` (which itself ignores surrounding whitespace). -/
def pyInt? (s : String) : Option ℤ := parseEnteroChars? (trimChars s.toList)

/-- The guarded conversion `float(precio_raw) if precio_raw else 0.0` with
`except ValueError: 0.0` of `cargar_inventario`: empty text and parse
failures both yield `0.0`. -/
def valorDecimalChars (l : List Char) : ℚ :=
  if l = [] then 0 else (parseDecimalChars? l).getD 0

/-- The whole `precio` cell treatment of `cargar_inventario`
(`programa-v0.12.py` lines 121-131). -/
def precioDesdeChars (l : List Char) : ℚ :=
  valorDecimalChars (normalizarSeparadores (limpiarPrecio l))

/-- The `precio` cell treatment, on a string. -/
def precioDesdeTexto (s : String) : ℚ := precioDesdeChars s.toList

/-- The `precio` cell treatment of the `programa-v0.1.py` draft (lines
59-64): `replace("$", "").replace(".", "").replace(",", ".")`, no strip,
periods dropped unconditionally. -/
def precioDesdeCharsV01 (l : List Char) : ℚ :=
  valorDecimalChars
    (((l.filter (fun c => !(c == '$'))).filter (fun c => !(c == '.'))).map comaAPunto)

/-- The v0.1 `precio` cell treatment, on a string. -/
def precioDesdeTextoV01 (s : String) : ℚ := precioDesdeCharsV01 s.toList

/-! ### The record codec: one CSV row to and from a `Product` -/

/-- One data row of the backing file, keyed by the fixed lowercase header
`codigo;nombre;precio;stock;vendidos`: the raw text of each cell. -/
structure RawRow where
  codigo : String
  nombre : String
  precio : String
  stock : String
  vendidos : String
  deriving DecidableEq, Repr

/-- Decoding of one row by `cargar_inventario` (`programa-v0.12.py` lines
117-147): `precio` through the cleaning and separator resolution with `0.0`
fallback, `stock` and `vendidos` through `int` with `0` fallback, `codigo`
and `nombre` taken verbatim. -/
def decodeRow (r : RawRow) : Product :=
  { codigo := r.codigo
    nombre := r.nombre
    precio := precioDesdeChars r.precio.toList
    stock := (pyInt? r.stock).getD 0
    vendidos := (pyInt? r.vendidos).getD 0 }

/-- A rational is an exact decimal when its denominator divides a power of
ten; every value of a Python float is one. -/
def DecimalExacto (q : ℚ) : Prop := q.den ∣ 10 ^ q.den

instance (q : ℚ) : Decidable (DecimalExacto q) :=
  inferInstanceAs (Decidable (q.den ∣ 10 ^ q.den))

/-- Integer part of the decimal rendering of `|q|`: the absolute numerator
scaled to denominator `10 ^ q.den`, divided by that power. -/
def precioEnt (q : ℚ) : ℕ := q.num.natAbs * (10 ^ q.den / q.den) / 10 ^ q.den

/-- Value of the fractional digits of the decimal rendering of `|q|`. -/
def precioFrac (q : ℚ) : ℕ := q.num.natAbs * (10 ^ q.den / q.den) % 10 ^ q.den

/-- Python `str` of a float holding the exact decimal `q`: sign, integer
part, point, fraction padded with leading zeros to `q.den` digits (so
`10.5` renders `"10.50"` and `5` renders `"5.0"` - a plain decimal with
the exact value, as `guardar_inventario` writes via `writer.writerow`). -/
def charsDePrecio (q : ℚ) : List Char :=
  (if q < 0 then ['-'] else []) ++
    charsDeNatPos (precioEnt q) ++ '.' ::
      (List.replicate (q.den - (charsDeNat (precioFrac q)).length) '0'
        ++ charsDeNat (precioFrac q))

/-- Python `str` of a float, as a string. -/
def strDePrecio (q : ℚ) : String := String.mk (charsDePrecio q)

/-- Encoding of one product by `guardar_inventario` (`programa-v0.12.py`
lines 165-172): `codigo` and `nombre` verbatim, `precio` as a plain
decimal, `stock` and `vendidos` as plain integers. -/
def encodeRow (p : Product) : RawRow :=
  { codigo := p.codigo
    nombre := p.nombre
    precio := strDePrecio p.precio
    stock := strDeEntero p.stock
    vendidos := strDeEntero p.vendidos }

/-! ### The edit operation -/

/-- The field selection of `editar_producto`, with the raw text typed for
the new value: options 1-3 of the submenu, cancel, and any other entry. -/
inductive CampoEdicion where
  | nombre (v : String)
  | precio (v : String)
  | stock (v : String)
  | cancelar
  | otra
  deriving DecidableEq, Repr

/-- The message `editar_producto` prints for the chosen field. -/
inductive MensajeEdicion where
  | nombreOk
  | precioOk
  | precioInvalido
  | stockOk
  | stockInvalido
  | cancelado
  | opcionNoValida
  deriving DecidableEq, Repr

/-- Result of `editar_producto`: not found, or edited with the submenu
message and the reported save success. -/
inductive EditarResult where
  | noEncontrado
  | editado (msg : MensajeEdicion) (guardadoOk : Bool)
  deriving DecidableEq, Repr

/-- One submenu step of `editar_producto` (`programa-v0.12.py` lines
370-395) on the matched product: the name is stripped and stored; a price
or stock that parses is stored with no further check (negative values
included); a parse failure leaves the record unchanged. -/
def aplicarEdicion (campo : CampoEdicion) (p : Product) : MensajeEdicion × Product :=
  match campo with
  | .nombre v => (.nombreOk, { p with nombre := String.mk (trimChars v.toList) })
  | .precio v =>
    match pyFloat? v with
    | some x => (.precioOk, { p with precio := x })
    | none => (.precioInvalido, p)
  | .stock v =>
    match pyInt? v with
    | some n => (.stockOk, { p with stock := n })
    | none => (.stockInvalido, p)
  | .cancelar => (.cancelado, p)
  | .otra => (.opcionNoValida, p)

/-- The edit operation `editar_producto` of `programa-v0.12.py`: acts on
the first product whose `codigo` matches, then saves (whatever the submenu
did) and reports the save's success flag. -/
def editarProducto (guardarOk : Bool) (codigo : String) (campo : CampoEdicion) :
    List Product → EditarResult × List Product
  | [] => (.noEncontrado, [])
  | p :: resto =>
    if p.codigo = codigo then
      ((.editado (aplicarEdicion campo p).1 guardarOk), (aplicarEdicion campo p).2 :: resto)
    else
      let r := editarProducto guardarOk codigo campo resto
      (r.1, p :: r.2)

/-! ### The report ranking -/

/-- The descending comparison `sorted(inventario, key=lambda x:
x.get("vendidos", 0), reverse=True)` sorts by: `a` precedes `b` when
`a.vendidos ≥ b.vendidos`. -/
def ordVendidos (a b : Product) : Bool := decide (b.vendidos ≤ a.vendidos)

/-- The top-sellers ranking of `generar_reporte` (`programa-v0.12.py` line
497): Python's `sorted` with `reverse=True` is the stable descending sort,
modelled by the stable `List.mergeSort`; then the slice `[:3]`. -/
def topVendidos (inv : List Product) : List Product :=
  (inv.mergeSort ordVendidos).take 3

/-! ### Load on an absent backing file, and the v0.1 report call -/

/-- The header fields `CAMPOS` of `programa-v0.12.py` line 26. -/
def CAMPOS : List String := ["codigo", "nombre", "precio", "stock", "vendidos"]

/-- One header line as `csv.DictWriter(...).writeheader()` emits it: the
field names joined by the delimiter, then the csv module's default line
terminator `"\r\n"`. -/
def lineaEncabezado (delim : String) : String :=
  String.intercalate delim CAMPOS ++ "\r\n"

/-- The byte-order mark that the `utf-8-sig` encoding prepends on write. -/
def BOM : String := "\uFEFF"

/-- The absent-file branch of `cargar_inventario` (`programa-v0.12.py`
lines 107-111): the file is created with `open(..., encoding="utf-8")` (no
byte-order mark) and `csv.DictWriter(f, fieldnames=CAMPOS)` - no
`delimiter=";"` argument, so the csv default comma applies - then
`writeheader()`, and the empty inventory is returned.  The pair is the
created file's text and the returned inventory. -/
def cargarInventarioSinArchivo : String × List Product :=
  (lineaEncabezado ",", [])

/-- The header as `guardar_inventario` (lines 161-163) writes it:
`utf-8-sig` (byte-order mark emitted) and `delimiter=";"`. -/
def encabezadoGuardar : String := BOM ++ lineaEncabezado ";"

/-- A Python-level error: the call of a function with the wrong number of
positional arguments raises `TypeError` before the body runs. -/
inductive PyError where
  | typeError
  deriving DecidableEq, Repr

/-- Calling a Python function that declares no parameters with an explicit
argument list: the body runs only when the list is empty. -/
def llamadaSinParametros (f : Unit → α) (args : List β) : Except PyError α :=
  if args.length = 0 then .ok (f ()) else .error .typeError

/-- The body of `generar_reporte` of `programa-v0.1.py` (lines 242-243),
declared with no parameters: it only prints a fixed message. -/
def generarReporteV01 : Unit → String := fun _ => "Ten tu reporte"

/-- Menu option 6 of `programa-v0.1.py` (line 37): the call
`generar_reporte(inventario)` passes the one argument `inventario` to the
parameterless `generar_reporte`. -/
def opcionReporteV01 (inventario : List Product) : Except PyError String :=
  llamadaSinParametros generarReporteV01 [inventario]

/-! ## Helper lemmas -/

theorem agregar_estado_indep (g₁ g₂ : Bool) (inv : List Product) (c n : String)
    (pr : ℚ) (st : ℤ) :
    (agregarProducto g₁ inv c n pr st).2 = (agregarProducto g₂ inv c n pr st).2 := by
  unfold agregarProducto
  split
  · rfl
  · split <;> rfl

theorem venta_estado_indep (g₁ g₂ : Bool) (c : String) (q : ℤ) (inv : List Product) :
    (registrarVenta g₁ c q inv).2 = (registrarVenta g₂ c q inv).2 := by
  induction inv with
  | nil => rfl
  | cons p resto ih =>
    simp only [registrarVenta]
    split
    · split
      · rfl
      · split <;> rfl
    · simpa using ih

theorem editar_estado_indep (g₁ g₂ : Bool) (c : String) (campo : CampoEdicion)
    (inv : List Product) :
    (editarProducto g₁ c campo inv).2 = (editarProducto g₂ c campo inv).2 := by
  induction inv with
  | nil => rfl
  | cons p resto ih =>
    simp only [editarProducto]
    split
    · rfl
    · simpa using ih

theorem eliminar_indep (g₁ g₂ : Bool) (c : String) (inv : List Product) :
    eliminarProducto g₁ c inv = eliminarProducto g₂ c inv := by
  induction inv with
  | nil => rfl
  | cons p resto ih =>
    simp only [eliminarProducto]
    split
    · rfl
    · rw [ih]

theorem props_digitChar (d : ℕ) :
    (digitChar d).isDigit = true ∧ digitChar d ≠ '.' ∧ digitChar d ≠ ',' ∧
    digitChar d ≠ '$' ∧ digitChar d ≠ ' ' ∧ digitChar d ≠ '-' ∧ digitChar d ≠ '+' ∧
    esEspacio (digitChar d) = false := by
  unfold digitChar
  repeat' split
  all_goals decide

theorem valorDigito_digitChar (d : ℕ) (h : d < 10) : valorDigito (digitChar d) = d := by
  interval_cases d <;> decide

theorem ne_punto_of_isDigit {c : Char} (h : c.isDigit = true) :
    c ≠ '.' ∧ c ≠ '-' ∧ c ≠ '+' := by
  refine ⟨?_, ?_, ?_⟩ <;> (intro e; subst e; exact absurd h (by decide))

theorem mem_charsDeNat {c : Char} {n : ℕ} (h : c ∈ charsDeNat n) :
    ∃ d, c = digitChar d := by
  simp only [charsDeNat, List.mem_reverse, List.mem_map] at h
  obtain ⟨d, _, rfl⟩ := h
  exact ⟨d, rfl⟩

theorem mem_charsDeNatPos {c : Char} {n : ℕ} (h : c ∈ charsDeNatPos n) :
    ∃ d, c = digitChar d := by
  unfold charsDeNatPos at h
  split at h
  · simp only [List.mem_singleton] at h
    exact ⟨0, by rw [h]; rfl⟩
  · exact mem_charsDeNat h

theorem charsDeNatPos_ne_nil (n : ℕ) : charsDeNatPos n ≠ [] := by
  unfold charsDeNatPos
  split
  · simp
  · simpa [charsDeNat, Nat.digits_ne_nil_iff_ne_zero] using (by assumption : ¬ n = 0)

theorem valorDigitos_foldl (l : List Char) (a : ℕ) :
    List.foldl (fun x c => 10 * x + valorDigito c) a l
      = Nat.ofDigits 10 ((l.map valorDigito).reverse) + a * 10 ^ l.length := by
  induction l generalizing a with
  | nil => simp [Nat.ofDigits]
  | cons c t ih =>
    simp only [List.foldl_cons, List.map_cons, List.reverse_cons, List.length_cons]
    rw [ih, Nat.ofDigits_append]
    simp only [Nat.ofDigits_singleton, List.length_reverse, List.length_map, pow_succ]
    ring

theorem valorDigitos_eq_ofDigits (l : List Char) :
    valorDigitos l = Nat.ofDigits 10 ((l.map valorDigito).reverse) := by
  have h := valorDigitos_foldl l 0
  simpa [valorDigitos] using h

theorem valorDigitos_charsDeNat (n : ℕ) : valorDigitos (charsDeNat n) = n := by
  rw [valorDigitos_eq_ofDigits, charsDeNat, List.map_reverse, List.reverse_reverse,
    List.map_map]
  have h2 : (Nat.digits 10 n).map (valorDigito ∘ digitChar)
      = (Nat.digits 10 n).map id := by
    refine List.map_congr_left fun d hd => ?_
    have hd10 : d < 10 := Nat.digits_lt_base (by norm_num) hd
    simp [Function.comp, valorDigito_digitChar d hd10]
  rw [h2, List.map_id, Nat.ofDigits_digits]

theorem valorDigitos_charsDeNatPos (n : ℕ) : valorDigitos (charsDeNatPos n) = n := by
  unfold charsDeNatPos
  split
  · rename_i h
    rw [h]
    decide
  · exact valorDigitos_charsDeNat n

theorem valorDigitos_replicate_zero (z : ℕ) (l : List Char) :
    valorDigitos (List.replicate z '0' ++ l) = valorDigitos l := by
  induction z with
  | zero => simp
  | succ k ih =>
    have h : valorDigitos (List.replicate (k + 1) '0' ++ l)
        = valorDigitos (List.replicate k '0' ++ l) := by
      simp only [List.replicate_succ, List.cons_append, valorDigitos, List.foldl_cons,
        valorDigito]
      rw [show 10 * 0 + ('0'.toNat - 48) = 0 from by decide]
    rw [h, ih]

theorem length_charsDeNat_le {n k : ℕ} (h : n < 10 ^ k) : (charsDeNat n).length ≤ k := by
  rcases eq_or_ne n 0 with rfl | hn
  · simp [charsDeNat]
  · have hlen : (charsDeNat n).length = (Nat.digits 10 n).length := by
      simp [charsDeNat]
    rw [hlen, Nat.digits_len 10 n (by norm_num) hn]
    have := Nat.log_lt_of_lt_pow hn h
    omega

theorem trimChars_eq_self (l : List Char) (h : ∀ c ∈ l, esEspacio c = false) :
    trimChars l = l := by
  have key : ∀ (m : List Char), (∀ c ∈ m, esEspacio c = false) →
      m.dropWhile esEspacio = m := by
    intro m hm
    cases m with
    | nil => rfl
    | cons a t =>
      rw [List.dropWhile_cons, hm a (List.mem_cons_self a t)]
      simp
  unfold trimChars
  rw [key l h, key _ (fun c hc => h c (List.mem_reverse.mp hc)), List.reverse_reverse]

theorem mem_of_mem_trimChars {c : Char} {l : List Char} (h : c ∈ trimChars l) : c ∈ l := by
  unfold trimChars at h
  rw [List.mem_reverse] at h
  have h1 := (List.dropWhile_sublist (l := (l.dropWhile esEspacio).reverse)
    (p := esEspacio)).subset h
  rw [List.mem_reverse] at h1
  exact (List.dropWhile_sublist (l := l) (p := esEspacio)).subset h1

theorem mem_trimChars {c : Char} {l : List Char} (hc : c ∈ l) (he : esEspacio c = false) :
    c ∈ trimChars l := by
  have key : ∀ (m : List Char), c ∈ m → c ∈ m.dropWhile esEspacio := by
    intro m hm
    induction m with
    | nil => cases hm
    | cons a t ih =>
      rw [List.dropWhile_cons]
      by_cases ha : esEspacio a = true
      · rw [if_pos ha]
        rcases List.mem_cons.mp hm with rfl | hmt
        · rw [he] at ha
          cases ha
        · exact ih hmt
      · rw [if_neg ha]
        exact hm
  unfold trimChars
  rw [List.mem_reverse]
  exact key _ (by rw [List.mem_reverse]; exact key _ hc)

theorem takeWhile_sin_punto (ip fp : List Char) (hip : ∀ c ∈ ip, c ≠ '.') :
    (ip ++ '.' :: fp).takeWhile (fun c => !(c == '.')) = ip := by
  induction ip with
  | nil => simp [List.takeWhile_cons]
  | cons a t ih =>
    have ha : (a == '.') = false := by
      simpa using hip a (List.mem_cons_self a t)
    simp only [List.cons_append, List.takeWhile_cons, ha]
    simpa using ih fun x hx => hip x (List.mem_cons_of_mem a hx)

theorem dropWhile_sin_punto (ip fp : List Char) (hip : ∀ c ∈ ip, c ≠ '.') :
    (ip ++ '.' :: fp).dropWhile (fun c => !(c == '.')) = '.' :: fp := by
  induction ip with
  | nil => simp [List.dropWhile_cons]
  | cons a t ih =>
    have ha : (a == '.') = false := by
      simpa using hip a (List.mem_cons_self a t)
    simp only [List.cons_append, List.dropWhile_cons, ha]
    simpa using ih fun x hx => hip x (List.mem_cons_of_mem a hx)

theorem count_punto_zero (l : List Char) (h : ∀ c ∈ l, c ≠ '.') : l.count '.' = 0 :=
  List.count_eq_zero.mpr fun hm => h '.' hm rfl

theorem parseDecimalSinSigno_punto (ip fp : List Char)
    (hip : ∀ c ∈ ip, c.isDigit = true) (hfp : ∀ c ∈ fp, c.isDigit = true)
    (hne : ip ≠ []) :
    parseDecimalSinSigno? (ip ++ '.' :: fp) =
      some ((valorDigitos ip : ℚ) + (valorDigitos fp : ℚ) / 10 ^ fp.length) := by
  have hip' : ∀ c ∈ ip, c ≠ '.' := fun c hc => (ne_punto_of_isDigit (hip c hc)).1
  have hfp' : ∀ c ∈ fp, c ≠ '.' := fun c hc => (ne_punto_of_isDigit (hfp c hc)).1
  have hcond : (∀ c ∈ ip ++ '.' :: fp, c.isDigit = true ∨ c = '.') ∧
      (∃ c ∈ ip ++ '.' :: fp, c.isDigit = true) ∧ (ip ++ '.' :: fp).count '.' ≤ 1 := by
    refine ⟨?_, ?_, ?_⟩
    · intro c hc
      rcases List.mem_append.mp hc with h | h
      · exact Or.inl (hip c h)
      · rcases List.mem_cons.mp h with rfl | h
        · exact Or.inr rfl
        · exact Or.inl (hfp c h)
    · obtain ⟨a, t, rfl⟩ := List.exists_cons_of_ne_nil hne
      exact ⟨a, List.mem_append_left _ (List.mem_cons_self a t),
        hip a (List.mem_cons_self a t)⟩
    · rw [List.count_append, List.count_cons_self, count_punto_zero ip hip',
        count_punto_zero fp hfp']
  unfold parseDecimalSinSigno?
  rw [if_pos hcond, takeWhile_sin_punto ip fp hip', dropWhile_sin_punto ip fp hip']
  simp

theorem parseDecimalChars_punto (ip fp : List Char)
    (hip : ∀ c ∈ ip, c.isDigit = true) (hfp : ∀ c ∈ fp, c.isDigit = true)
    (hne : ip ≠ []) :
    parseDecimalChars? (ip ++ '.' :: fp) =
      some ((valorDigitos ip : ℚ) + (valorDigitos fp : ℚ) / 10 ^ fp.length) := by
  obtain ⟨a, t, rfl⟩ := List.exists_cons_of_ne_nil hne
  have ha := hip a (List.mem_cons_self a t)
  obtain ⟨-, ha1, ha2⟩ := ne_punto_of_isDigit ha
  rw [List.cons_append]
  rw [show parseDecimalChars? (a :: (t ++ '.' :: fp))
      = if a = '-' then (parseDecimalSinSigno? (t ++ '.' :: fp)).map (fun v => -v)
        else if a = '+' then parseDecimalSinSigno? (t ++ '.' :: fp)
        else parseDecimalSinSigno? (a :: (t ++ '.' :: fp)) from rfl]
  rw [if_neg ha1, if_neg ha2, ← List.cons_append]
  exact parseDecimalSinSigno_punto (a :: t) fp hip hfp (by simp)

theorem valorDecimal_punto (ip fp : List Char)
    (hip : ∀ c ∈ ip, c.isDigit = true) (hfp : ∀ c ∈ fp, c.isDigit = true)
    (hne : ip ≠ []) :
    valorDecimalChars (ip ++ '.' :: fp) =
      (valorDigitos ip : ℚ) + (valorDigitos fp : ℚ) / 10 ^ fp.length := by
  unfold valorDecimalChars
  rw [if_neg (by simp), parseDecimalChars_punto ip fp hip hfp hne, Option.getD_some]

theorem limpiarPrecio_eq_self (l : List Char)
    (h1 : ∀ c ∈ l, esEspacio c = false)
    (h2 : ∀ c ∈ l, (!(c == '$' || c == ' ')) = true) :
    limpiarPrecio l = l := by
  unfold limpiarPrecio
  rw [trimChars_eq_self l h1, List.filter_eq_self.mpr h2]

theorem normalizar_sin_coma (l : List Char) (h : ',' ∉ l) :
    normalizarSeparadores l = l := by
  unfold normalizarSeparadores
  rw [if_neg (fun hc => h hc.1), if_neg (fun hc => h hc.2)]

theorem parseEnteroChars_digitos (l : List Char) (hl : ∀ c ∈ l, c.isDigit = true)
    (hne : l ≠ []) : parseEnteroChars? l = some (valorDigitos l : ℤ) := by
  obtain ⟨c, t, rfl⟩ := List.exists_cons_of_ne_nil hne
  have hc := hl c (List.mem_cons_self c t)
  obtain ⟨-, hc1, hc2⟩ := ne_punto_of_isDigit hc
  rw [show parseEnteroChars? (c :: t)
      = if c = '-' then
          (if t ≠ [] ∧ ∀ x ∈ t, x.isDigit = true then some (-(valorDigitos t : ℤ))
            else none)
        else if c = '+' then
          (if t ≠ [] ∧ ∀ x ∈ t, x.isDigit = true then some (valorDigitos t : ℤ)
            else none)
        else if ∀ x ∈ c :: t, x.isDigit = true then some (valorDigitos (c :: t) : ℤ)
          else none
      from rfl]
  rw [if_neg hc1, if_neg hc2, if_pos hl]

theorem parseEnteroChars_neg (l : List Char) (hl : ∀ c ∈ l, c.isDigit = true)
    (hne : l ≠ []) : parseEnteroChars? ('-' :: l) = some (-(valorDigitos l : ℤ)) := by
  rw [show parseEnteroChars? ('-' :: l)
      = if l ≠ [] ∧ ∀ x ∈ l, x.isDigit = true then some (-(valorDigitos l : ℤ))
        else none
      from rfl]
  rw [if_pos ⟨hne, hl⟩]

theorem pyInt_strDeEntero (i : ℤ) : pyInt? (strDeEntero i) = some i := by
  have hdig : ∀ c ∈ charsDeNatPos i.natAbs, c.isDigit = true := by
    intro c hc
    obtain ⟨d, rfl⟩ := mem_charsDeNatPos hc
    exact (props_digitChar d).1
  have hesp : ∀ c ∈ charsDeNatPos i.natAbs, esEspacio c = false := by
    intro c hc
    obtain ⟨d, rfl⟩ := mem_charsDeNatPos hc
    exact (props_digitChar d).2.2.2.2.2.2.2
  unfold pyInt? strDeEntero
  rw [show (String.mk (charsDeEntero i)).toList = charsDeEntero i from rfl]
  by_cases hi : i < 0
  · have hch : charsDeEntero i = '-' :: charsDeNatPos i.natAbs := by
      simp [charsDeEntero, hi]
    rw [hch, trimChars_eq_self _ ?_, parseEnteroChars_neg _ hdig (charsDeNatPos_ne_nil _),
      valorDigitos_charsDeNatPos]
    · congr 1
      omega
    · intro c hc
      rcases List.mem_cons.mp hc with rfl | hc
      · decide
      · exact hesp c hc
  · have hch : charsDeEntero i = charsDeNatPos i.natAbs := by
      simp [charsDeEntero, hi]
    rw [hch, trimChars_eq_self _ hesp,
      parseEnteroChars_digitos _ hdig (charsDeNatPos_ne_nil _), valorDigitos_charsDeNatPos]
    congr 1
    omega

theorem precioEnt_add_frac (q : ℚ) (hx : DecimalExacto q) :
    (precioEnt q : ℚ) + (precioFrac q : ℚ) / 10 ^ q.den = |q| := by
  have hden : (0:ℕ) < q.den := q.pos
  have hdc : q.den * (10 ^ q.den / q.den) = 10 ^ q.den := Nat.mul_div_cancel' hx
  have hm : 10 ^ q.den * precioEnt q + precioFrac q
      = q.num.natAbs * (10 ^ q.den / q.den) := Nat.div_add_mod _ _
  have h10 : ((10:ℚ) ^ q.den) ≠ 0 := by positivity
  have hdenq : (0:ℚ) < (q.den : ℚ) := by
    exact_mod_cast hden
  have hden' : ((q.den : ℚ)) ≠ 0 := hdenq.ne'
  have hdcq : (q.den : ℚ) * ((10 ^ q.den / q.den : ℕ) : ℚ) = (10:ℚ) ^ q.den := by
    exact_mod_cast hdc
  have hnabs : ((q.num.natAbs : ℕ) : ℚ) = |(q.num : ℚ)| := by
    simp [Int.cast_natAbs]
  have habs : |q| = (q.num.natAbs : ℚ) / (q.den : ℚ) := by
    rw [hnabs, ← abs_of_pos hdenq, ← abs_div, Rat.num_div_den]
  have hmq : (precioEnt q : ℚ) * 10 ^ q.den + (precioFrac q : ℚ)
      = ((q.num.natAbs : ℕ) : ℚ) * ((10 ^ q.den / q.den : ℕ) : ℚ) := by
    have h := congrArg (fun n : ℕ => (n : ℚ)) hm
    push_cast at h
    linarith [h]
  rw [habs, eq_div_iff hden']
  refine mul_right_cancel₀ h10 ?_
  have hexp : ((precioEnt q : ℚ) + (precioFrac q : ℚ) / 10 ^ q.den) * q.den * 10 ^ q.den
      = ((precioEnt q : ℚ) * 10 ^ q.den + (precioFrac q : ℚ)) * q.den := by
    field_simp
  rw [hexp, hmq]
  calc ((q.num.natAbs : ℕ) : ℚ) * ((10 ^ q.den / q.den : ℕ) : ℚ) * q.den
      = ((q.num.natAbs : ℕ) : ℚ) * ((q.den : ℚ) * ((10 ^ q.den / q.den : ℕ) : ℚ)) := by
        ring
    _ = (q.num.natAbs : ℚ) * 10 ^ q.den := by rw [hdcq]

theorem precio_roundtrip (q : ℚ) (hx : DecimalExacto q) :
    precioDesdeChars (charsDePrecio q) = q := by
  have hfpd : ∀ c ∈ List.replicate (q.den - (charsDeNat (precioFrac q)).length) '0'
      ++ charsDeNat (precioFrac q), c.isDigit = true := by
    intro c hc
    rcases List.mem_append.mp hc with h | h
    · rw [List.eq_of_mem_replicate h]
      decide
    · obtain ⟨d, rfl⟩ := mem_charsDeNat h
      exact (props_digitChar d).1
  have hipd : ∀ c ∈ charsDeNatPos (precioEnt q), c.isDigit = true := by
    intro c hc
    obtain ⟨d, rfl⟩ := mem_charsDeNatPos hc
    exact (props_digitChar d).1
  have hlen : (List.replicate (q.den - (charsDeNat (precioFrac q)).length) '0'
      ++ charsDeNat (precioFrac q)).length = q.den := by
    have hfr : precioFrac q < 10 ^ q.den := Nat.mod_lt _ (by positivity)
    have hle := length_charsDeNat_le hfr
    simp only [List.length_append, List.length_replicate]
    omega
  have hval : valorDigitos (List.replicate (q.den - (charsDeNat (precioFrac q)).length) '0'
      ++ charsDeNat (precioFrac q)) = precioFrac q := by
    rw [valorDigitos_replicate_zero, valorDigitos_charsDeNat]
  have hmem : ∀ c ∈ charsDePrecio q,
      esEspacio c = false ∧ (!(c == '$' || c == ' ')) = true ∧ c ≠ ',' := by
    intro c hc
    have hdc : (∃ d, c = digitChar d) ∨ c = '-' ∨ c = '.' := by
      unfold charsDePrecio at hc
      rcases List.mem_append.mp hc with h | h
      · rcases List.mem_append.mp h with h1 | h1
        · right
          left
          by_cases hq : q < 0
          · rw [if_pos hq] at h1
            simpa using h1
          · rw [if_neg hq] at h1
            simp at h1
        · exact Or.inl (mem_charsDeNatPos h1)
      · rcases List.mem_cons.mp h with rfl | h2
        · exact Or.inr (Or.inr rfl)
        · refine Or.inl ?_
          rcases List.mem_append.mp h2 with h3 | h3
          · exact ⟨0, by rw [List.eq_of_mem_replicate h3]; rfl⟩
          · exact mem_charsDeNat h3
    rcases hdc with ⟨d, rfl⟩ | rfl | rfl
    · obtain ⟨-, -, hco, hdo, hsp, -, -, hws⟩ := props_digitChar d
      exact ⟨hws, by simp [hdo, hsp], hco⟩
    · exact ⟨by decide, by decide, by decide⟩
    · exact ⟨by decide, by decide, by decide⟩
  have hclean : limpiarPrecio (charsDePrecio q) = charsDePrecio q :=
    limpiarPrecio_eq_self _ (fun c hc => (hmem c hc).1) (fun c hc => (hmem c hc).2.1)
  have hnoc : ',' ∉ charsDePrecio q := fun h => (hmem ',' h).2.2 rfl
  unfold precioDesdeChars
  rw [hclean, normalizar_sin_coma _ hnoc]
  by_cases hq : q < 0
  · have hch : charsDePrecio q = '-' :: (charsDeNatPos (precioEnt q) ++ '.' ::
        (List.replicate (q.den - (charsDeNat (precioFrac q)).length) '0'
          ++ charsDeNat (precioFrac q))) := by
      simp [charsDePrecio, hq]
    rw [hch]
    unfold valorDecimalChars
    rw [if_neg (by simp)]
    rw [show parseDecimalChars? ('-' :: (charsDeNatPos (precioEnt q) ++ '.' ::
        (List.replicate (q.den - (charsDeNat (precioFrac q)).length) '0'
          ++ charsDeNat (precioFrac q))))
        = (parseDecimalSinSigno? (charsDeNatPos (precioEnt q) ++ '.' ::
        (List.replicate (q.den - (charsDeNat (precioFrac q)).length) '0'
          ++ charsDeNat (precioFrac q)))).map (fun v => -v) from rfl]
    rw [parseDecimalSinSigno_punto _ _ hipd hfpd (charsDeNatPos_ne_nil _)]
    simp only [Option.map_some', Option.getD_some]
    rw [valorDigitos_charsDeNatPos, hval, hlen]
    have habs := precioEnt_add_frac q hx
    rw [abs_of_neg hq] at habs
    linarith [habs]
  · have hch : charsDePrecio q = charsDeNatPos (precioEnt q) ++ '.' ::
        (List.replicate (q.den - (charsDeNat (precioFrac q)).length) '0'
          ++ charsDeNat (precioFrac q)) := by
      simp [charsDePrecio, hq]
    rw [hch, valorDecimal_punto _ _ hipd hfpd (charsDeNatPos_ne_nil _),
      valorDigitos_charsDeNatPos, hval, hlen]
    have habs := precioEnt_add_frac q hx
    rw [abs_of_nonneg (not_lt.mp hq)] at habs
    exact habs

/-! ## The claims -/

/-- C1: a sale of `0 < q ≤ stock` units of the product with code `c`
(`c` not held by any earlier product) succeeds, decrements that product's
`stock` by `q`, increments its `vendidos` by `q`, and changes nothing
else - no other field of the product, no other product, no order. -/
theorem registrar_venta_exito (pre post : List Product) (p : Product) (q : ℤ)
    (hpre : ∀ r ∈ pre, r.codigo ≠ p.codigo) (hq : 0 < q) (hs : q ≤ p.stock) :
    registrarVenta true p.codigo q (pre ++ p :: post) =
      (VentaResult.ok,
        pre ++ { p with stock := p.stock - q, vendidos := p.vendidos + q } :: post) := by
  induction pre with
  | nil =>
    simp only [List.nil_append, registrarVenta]
    rw [if_pos trivial, if_neg (show ¬ q ≤ 0 by omega),
      if_neg (show ¬ p.stock < q by omega)]
    rfl
  | cons a t ih =>
    have ha : a.codigo ≠ p.codigo := hpre a (List.mem_cons_self a t)
    have ih' := ih fun r hr => hpre r (List.mem_cons_of_mem a hr)
    simp only [List.cons_append, registrarVenta, if_neg ha, List.append_eq]
    rw [ih']

/-- Witness for C1: selling 3 of 5 units of `"A1"` behind one other
product leaves stock 2, sold 3, the other product untouched. -/
theorem registrar_venta_exito_testigo :
    registrarVenta true "A1" 3
        [⟨"B7", "Cable", 3, 9, 1⟩, ⟨"A1", "Widget", 10, 5, 0⟩] =
      (VentaResult.ok,
        [⟨"B7", "Cable", 3, 9, 1⟩, ⟨"A1", "Widget", 10, 2, 3⟩]) := by
  exact registrar_venta_exito [⟨"B7", "Cable", 3, 9, 1⟩] []
    ⟨"A1", "Widget", 10, 5, 0⟩ 3 (by decide) (by decide) (by decide)

/-- C2: a sale of `q > stock` units (stock is non-negative, the data
model's invariant) is refused with the insufficient-stock outcome and the
whole inventory is returned exactly as it was, whatever the save flag
would have been. -/
theorem registrar_venta_sin_stock (saveOk : Bool) (pre post : List Product)
    (p : Product) (q : ℤ) (hpre : ∀ r ∈ pre, r.codigo ≠ p.codigo)
    (hs : 0 ≤ p.stock) (hq : p.stock < q) :
    registrarVenta saveOk p.codigo q (pre ++ p :: post) =
      (VentaResult.sinStock, pre ++ p :: post) := by
  induction pre with
  | nil =>
    simp only [List.nil_append, registrarVenta]
    rw [if_pos trivial, if_neg (show ¬ q ≤ 0 by omega), if_pos hq]
  | cons a t ih =>
    have ha : a.codigo ≠ p.codigo := hpre a (List.mem_cons_self a t)
    have ih' := ih fun r hr => hpre r (List.mem_cons_of_mem a hr)
    simp only [List.cons_append, registrarVenta, if_neg ha, List.append_eq]
    rw [ih']

/-- Witness for C2: selling 9 of 5 units of `"A1"` fails with
`sinStock` and the inventory is unchanged, even with the save failing. -/
theorem registrar_venta_sin_stock_testigo :
    registrarVenta false "A1" 9
        [⟨"B7", "Cable", 3, 9, 1⟩, ⟨"A1", "Widget", 10, 5, 0⟩] =
      (VentaResult.sinStock,
        [⟨"B7", "Cable", 3, 9, 1⟩, ⟨"A1", "Widget", 10, 5, 0⟩]) := by
  exact registrar_venta_sin_stock false [⟨"B7", "Cable", 3, 9, 1⟩] []
    ⟨"A1", "Widget", 10, 5, 0⟩ 9 (by decide) (by decide) (by decide)

/-- C4 (the code, run at the failing input): editing the stock of `"A1"`
to the text `"-5"` is accepted - `int("-5")` parses, no sign check
follows - so the record is changed to a negative stock and the submenu
reports the update, where the spec requires an invalid-input failure with
the record unchanged. -/
theorem editar_acepta_stock_negativo :
    editarProducto true "A1" (CampoEdicion.stock "-5")
        [⟨"A1", "Widget", 10, 5, 0⟩] =
      (EditarResult.editado MensajeEdicion.stockOk true,
        [⟨"A1", "Widget", 10, -5, 0⟩]) := by
  decide

/-- C5 (the code, run at the failing input): a state satisfying the data
model's field invariants (price ≥ 0, stock ≥ 0) is taken by the edit
operation to a state violating them: editing the stock of `"B2"` to
`"-7"` succeeds and leaves a product with negative stock. -/
theorem editar_rompe_invariante :
    (∀ p ∈ [(⟨"B2", "Cable", 3, 4, 0⟩ : Product)], 0 ≤ p.precio ∧ 0 ≤ p.stock) ∧
    ∃ p ∈ (editarProducto true "B2" (CampoEdicion.stock "-7")
        [⟨"B2", "Cable", 3, 4, 0⟩]).2, p.stock < 0 := by
  decide

/-- C3: the load-time price treatment - on any raw text with a comma and
no period the comma is treated as the decimal point (the value is that of
the cleaned text with the comma replaced by a period); on any raw text
with both, the periods are dropped as thousands separators and the comma
becomes the decimal point; and the concrete cases: `"1.234,56"` parses to
`1234.56`, `"19,99"` to `19.99`, `"bad"` to `0.0` without error - in the
v0.12 loader and, for the concrete cases, in the v0.1 draft's loader
too. -/
theorem parseo_precio_reglas_y_casos :
    (∀ l : List Char, ',' ∈ l → '.' ∉ l →
        precioDesdeChars l = valorDecimalChars ((limpiarPrecio l).map comaAPunto))
    ∧ (∀ l : List Char, ',' ∈ l → '.' ∈ l →
        precioDesdeChars l =
          valorDecimalChars
            (((limpiarPrecio l).filter (fun c => !(c == '.'))).map comaAPunto))
    ∧ precioDesdeTexto "1.234,56" = 123456 / 100
    ∧ precioDesdeTexto "19,99" = 1999 / 100
    ∧ precioDesdeTexto "bad" = 0
    ∧ precioDesdeTextoV01 "1.234,56" = 123456 / 100
    ∧ precioDesdeTextoV01 "19,99" = 1999 / 100
    ∧ precioDesdeTextoV01 "bad" = 0 := by
  refine ⟨?_, ?_, ?_, ?_, ?_, ?_, ?_, ?_⟩
  · intro l hc hp
    unfold precioDesdeChars
    congr 1
    have h1 : ',' ∈ limpiarPrecio l :=
      List.mem_filter.mpr ⟨mem_trimChars hc (by decide), by decide⟩
    have h2 : '.' ∉ limpiarPrecio l :=
      fun h => hp (mem_of_mem_trimChars (List.mem_filter.mp h).1)
    unfold normalizarSeparadores
    rw [if_pos ⟨h1, h2⟩]
  · intro l hc hp
    unfold precioDesdeChars
    congr 1
    have h1 : ',' ∈ limpiarPrecio l :=
      List.mem_filter.mpr ⟨mem_trimChars hc (by decide), by decide⟩
    have h2 : '.' ∈ limpiarPrecio l :=
      List.mem_filter.mpr ⟨mem_trimChars hp (by decide), by decide⟩
    unfold normalizarSeparadores
    rw [if_neg (fun h => h.2 h2), if_pos ⟨h2, h1⟩]
  · have h : normalizarSeparadores (limpiarPrecio ("1.234,56".toList))
        = ['1', '2', '3', '4'] ++ '.' :: ['5', '6'] := by decide
    unfold precioDesdeTexto precioDesdeChars
    rw [h, valorDecimal_punto _ _ (by decide) (by decide) (by decide),
      show valorDigitos ['1', '2', '3', '4'] = 1234 from by decide,
      show valorDigitos ['5', '6'] = 56 from by decide]
    norm_num
  · have h : normalizarSeparadores (limpiarPrecio ("19,99".toList))
        = ['1', '9'] ++ '.' :: ['9', '9'] := by decide
    unfold precioDesdeTexto precioDesdeChars
    rw [h, valorDecimal_punto _ _ (by decide) (by decide) (by decide),
      show valorDigitos ['1', '9'] = 19 from by decide,
      show valorDigitos ['9', '9'] = 99 from by decide]
    norm_num
  · have h : normalizarSeparadores (limpiarPrecio ("bad".toList)) = ['b', 'a', 'd'] := by
      decide
    unfold precioDesdeTexto precioDesdeChars
    rw [h]
    unfold valorDecimalChars
    rw [if_neg (by decide), show parseDecimalChars? ['b', 'a', 'd'] = none from by decide]
    rfl
  · have h : ((("1.234,56".toList.filter (fun c => !(c == '$'))).filter
        (fun c => !(c == '.'))).map comaAPunto)
        = ['1', '2', '3', '4'] ++ '.' :: ['5', '6'] := by decide
    unfold precioDesdeTextoV01 precioDesdeCharsV01
    rw [h, valorDecimal_punto _ _ (by decide) (by decide) (by decide),
      show valorDigitos ['1', '2', '3', '4'] = 1234 from by decide,
      show valorDigitos ['5', '6'] = 56 from by decide]
    norm_num
  · have h : ((("19,99".toList.filter (fun c => !(c == '$'))).filter
        (fun c => !(c == '.'))).map comaAPunto)
        = ['1', '9'] ++ '.' :: ['9', '9'] := by decide
    unfold precioDesdeTextoV01 precioDesdeCharsV01
    rw [h, valorDecimal_punto _ _ (by decide) (by decide) (by decide),
      show valorDigitos ['1', '9'] = 19 from by decide,
      show valorDigitos ['9', '9'] = 99 from by decide]
    norm_num
  · have h : ((("bad".toList.filter (fun c => !(c == '$'))).filter
        (fun c => !(c == '.'))).map comaAPunto) = ['b', 'a', 'd'] := by decide
    unfold precioDesdeTextoV01 precioDesdeCharsV01
    rw [h]
    unfold valorDecimalChars
    rw [if_neg (by decide), show parseDecimalChars? ['b', 'a', 'd'] = none from by decide]
    rfl

/-- C6: for a valid product (price a non-negative exact decimal - every
Python float value is one - and non-negative integer stock and sold
counts), decoding the encoded row reproduces the product exactly: `codigo`
and `nombre` byte-identical, `precio`, `stock` and `vendidos` the same
numeric values. -/
theorem decode_encode_producto (p : Product) (hpr : 0 ≤ p.precio)
    (hde : DecimalExacto p.precio) (hst : 0 ≤ p.stock) (hve : 0 ≤ p.vendidos) :
    decodeRow (encodeRow p) = p := by
  obtain ⟨c, n, pr, st, ve⟩ := p
  simp only [decodeRow, encodeRow, Product.mk.injEq]
  refine ⟨trivial, trivial, ?_, ?_, ?_⟩
  · exact precio_roundtrip pr hde
  · rw [pyInt_strDeEntero]
    rfl
  · rw [pyInt_strDeEntero]
    rfl

/-- Witness for C6: the row encoded from the product
`("A1", "Widget", 10, 5, 0)` decodes back to it exactly. -/
theorem decode_encode_producto_testigo :
    decodeRow (encodeRow ⟨"A1", "Widget", 10, 5, 0⟩) = ⟨"A1", "Widget", 10, 5, 0⟩ :=
  decode_encode_producto ⟨"A1", "Widget", 10, 5, 0⟩ (by decide) (by decide) (by decide)
    (by decide)

/-- C8 counterexample: the file created by the absent-file branch of
`cargar_inventario` is comma-delimited (the `DictWriter` there passes no
`delimiter`) and carries no byte-order mark (it opens with plain
`utf-8`), so it is not the semicolon-plus-BOM header the claim states. -/
theorem creacion_archivo_formato :
    cargarInventarioSinArchivo.1 = "codigo,nombre,precio,stock,vendidos\r\n" ∧
    cargarInventarioSinArchivo.1 ≠ BOM ++ "codigo;nombre;precio;stock;vendidos\r\n" ∧
    ';' ∉ cargarInventarioSinArchivo.1.toList ∧
    '﻿' ∉ cargarInventarioSinArchivo.1.toList := by
  decide

/-- C8 as amended: with the backing file absent, load creates it holding
only the header row - but comma-delimited and without a byte-order mark -
and returns the empty inventory; the semicolon-and-BOM format of the claim
is the one `guardar_inventario` writes on save. -/
theorem carga_sin_archivo_encabezado :
    cargarInventarioSinArchivo =
      ("codigo,nombre,precio,stock,vendidos\r\n", ([] : List Product)) ∧
    encabezadoGuardar = BOM ++ "codigo;nombre;precio;stock;vendidos\r\n" := by
  decide

/-- C9 counterexample: when the save fails after a delete, the delete
still reports the deleted outcome - its result is identical to the
successful-save result, so the failure is not reported, against the
claim's "reports the failure" for every operation. -/
theorem eliminar_reporta_exito_sin_guardar :
    (eliminarProducto false "A1" [⟨"A1", "Widget", 10, 5, 0⟩]).1 =
      EliminarResult.eliminado ∧
    eliminarProducto false "A1" [⟨"A1", "Widget", 10, 5, 0⟩] =
      eliminarProducto true "A1" [⟨"A1", "Widget", 10, 5, 0⟩] := by
  decide

/-- C9 as amended: a failed save never rolls the in-memory mutation back -
for add, sell, edit and delete the resulting inventory is the same as with
a successful save; add and sell report the failure (`errorGuardar` exactly
when the successful run reports `ok`), edit reports it in its flag, but
delete ignores the save result altogether and answers as on success. -/
theorem persistencia_fallida_sin_rollback (inv : List Product) (c n : String)
    (pr : ℚ) (st q : ℤ) (campo : CampoEdicion) :
    (agregarProducto false inv c n pr st).2 = (agregarProducto true inv c n pr st).2
    ∧ ((agregarProducto true inv c n pr st).1 = .ok →
        (agregarProducto false inv c n pr st).1 = .errorGuardar)
    ∧ (registrarVenta false c q inv).2 = (registrarVenta true c q inv).2
    ∧ ((registrarVenta true c q inv).1 = .ok →
        (registrarVenta false c q inv).1 = .errorGuardar)
    ∧ (editarProducto false c campo inv).2 = (editarProducto true c campo inv).2
    ∧ (∀ m g, (editarProducto false c campo inv).1 = .editado m g → g = false)
    ∧ eliminarProducto false c inv = eliminarProducto true c inv := by
  refine ⟨agregar_estado_indep false true inv c n pr st, ?_,
    venta_estado_indep false true c q inv, ?_,
    editar_estado_indep false true c campo inv, ?_,
    eliminar_indep false true c inv⟩
  · unfold agregarProducto
    split
    · simp
    · split <;> simp
  · induction inv with
    | nil => simp [registrarVenta]
    | cons p resto ih =>
      simp only [registrarVenta]
      split
      · split
        · simp
        · split <;> simp
      · simpa using ih
  · induction inv with
    | nil => simp [editarProducto]
    | cons p resto ih =>
      simp only [editarProducto]
      split
      · intro m g h
        cases h
        rfl
      · simpa using ih

theorem ordVendidos_trans (a b c : Product) :
    ordVendidos a b → ordVendidos b c → ordVendidos a c := by
  simp only [ordVendidos, decide_eq_true_eq]
  omega

theorem ordVendidos_total (a b : Product) : ordVendidos a b || ordVendidos b a := by
  simp only [ordVendidos, Bool.or_eq_true, decide_eq_true_eq]
  omega

/-- C7: the top-sellers ranking is sorted by descending `vendidos`; it has
`min 3 n` entries (the slice `[:3]`); the underlying sort is stable - a
pair of products tied on `vendidos` keeps its original relative order; and
on the five-product scenario with `vendidos` `[0, 50, 50, 10, 5]` it
returns the two 50-sellers in their original order and then the
10-seller. -/
theorem top_vendidos_correcto :
    (∀ inv : List Product,
        List.Pairwise (fun a b => b.vendidos ≤ a.vendidos) (topVendidos inv))
    ∧ (∀ inv : List Product, (topVendidos inv).length = min 3 inv.length)
    ∧ (∀ (inv : List Product) (a b : Product), List.Sublist [a, b] inv →
        a.vendidos = b.vendidos → List.Sublist [a, b] (inv.mergeSort ordVendidos))
    ∧ topVendidos
        [⟨"P1", "a", 1, 0, 0⟩, ⟨"P2", "b", 1, 0, 50⟩, ⟨"P3", "c", 1, 0, 50⟩,
          ⟨"P4", "d", 1, 0, 10⟩, ⟨"P5", "e", 1, 0, 5⟩] =
      [⟨"P2", "b", 1, 0, 50⟩, ⟨"P3", "c", 1, 0, 50⟩, ⟨"P4", "d", 1, 0, 10⟩] := by
  refine ⟨?_, ?_, ?_, ?_⟩
  · intro inv
    have h := List.sorted_mergeSort ordVendidos_trans ordVendidos_total inv
    exact ((h.sublist (List.take_sublist 3 _)).imp
      (fun hab => by simpa [ordVendidos] using hab))
  · intro inv
    simp [topVendidos, (List.mergeSort_perm inv ordVendidos).length_eq]
  · intro inv a b hab hv
    exact List.pair_sublist_mergeSort ordVendidos_trans ordVendidos_total
      (by simp [ordVendidos, hv]) hab
  · simp [topVendidos, List.mergeSort, ordVendidos]

/-- C10: in the v0.1 draft the report menu option calls the parameterless
`generar_reporte` with the inventory as an argument, so for every
inventory the call raises `TypeError` before any report logic runs. -/
theorem reporte_v01_llamada_falla (inv : List Product) :
    opcionReporteV01 inv = Except.error PyError.typeError := rfl

end Inventario
